import Mathlib

/-!
Verification of the `picky` interactive fuzzy-selection engine
(`src/lib.rs`): a shallow embedding of its data model, ranking engine,
query cache, selection-controller event loop, renderer and terminal
session, together with theorems settling the specification claims.

Modelling conventions:
* Rust `String` is modelled as `List Char`; `String::len` (a byte count)
  is `byteLen`, computed from each character's UTF-8 encoding width.
* The external fuzzy matcher (`SkimMatcherV2::fuzzy_indices`) is an
  explicit parameter `sc : Scorer` — the spec treats it as a pure,
  deterministic black box.
* `std::collections::BinaryHeap` is modelled by its internal vector
  (`List`): `push` appends and sifts up exactly as in the Rust standard
  library, using `<=`, i.e. the *manual* `PartialOrd` of `RankedItem`
  (which compares scores only); `iter()` yields the internal order.
* `HashMap<String, _>` is modelled as an association list: the code only
  uses `get`/`insert`/`contains_key`, which are order-insensitive.
* The random per-character colour map is purely cosmetic styling and is
  not part of any claim; it is omitted from the prompt state.
-/

/-- UTF-8 encoded width in bytes of one character (Rust `char::len_utf8`). -/
def utf8Len (c : Char) : Nat :=
  if c.toNat < 0x80 then 1
  else if c.toNat < 0x800 then 2
  else if c.toNat < 0x10000 then 3
  else 4

/-- Byte length of a Rust string (`String::len`). -/
def byteLen (s : List Char) : Nat := (s.map utf8Len).sum

/-- Rust byte slicing `&s[..k]`: `some` prefix when `k` lands on a
character boundary within the string, `none` when the slice panics
(index out of bounds or not on a UTF-8 boundary). -/
def takeBytes : List Char → Nat → Option (List Char)
  | [], k => if k = 0 then some [] else none
  | c :: rest, k =>
    if k = 0 then some []
    else if utf8Len c ≤ k then (takeBytes rest (k - utf8Len c)).map (fun t => c :: t)
    else none

/-- A scorer: item display text and query to optional (score, matched
char indices). Stands for `SkimMatcherV2::fuzzy_indices`. -/
def Scorer : Type := List Char → List Char → Option (Int × List Nat)

/-- The struct `RankedItem<T>(Arc<T>, Option<i64>, Vec<usize>)` from `src/lib.rs`. -/
structure RankedItem (α : Type) where
  item : α
  score : Option Int
  indices : List Nat
deriving DecidableEq, Repr

/-- Method `RankedItem::rank`: on a match store score and indices; on a miss
set the score to `None` but keep the stale indices (as the code does). -/
def rankItem {α : Type} (disp : α → List Char) (sc : Scorer) (query : List Char)
    (r : RankedItem α) : RankedItem α :=
  match sc (disp r.item) query with
  | some (score, idx) => { r with score := some score, indices := idx }
  | none => { r with score := none }

/-- The derived `Ord` on `Option<i64>`: `None` is smaller than any `Some`. -/
def optLe (a b : Option Int) : Bool :=
  match a, b with
  | none, _ => true
  | some _, none => false
  | some x, some y => x ≤ y

/-- The manual `PartialOrd for RankedItem` compares scores only; it is
what `BinaryHeap`'s sift-up consults through `<=`. -/
def rankedLe {α : Type} (a b : RankedItem α) : Bool := optLe a.score b.score

/-- Impl `Ord for RankedItem` (`RankedItem::cmp`): score first, then reversed
comparison of display byte lengths, i.e. shorter display text is larger. -/
def rankedCmp {α : Type} (disp : α → List Char) (a b : RankedItem α) : Ordering :=
  match compare a.score b.score with
  | Ordering.eq => (compare (byteLen (disp a.item)) (byteLen (disp b.item))).swap
  | o => o

/-- Function `score_items`: every entry re-ranked in place (rayon `par_iter_mut`).
The canonical (schedule-independent) result is a `map`. -/
def score_items {α : Type} (disp : α → List Char) (sc : Scorer) (query : List Char)
    (l : List (RankedItem α)) : List (RankedItem α) :=
  l.map (rankItem disp sc query)

/-- Swap two positions of the heap's internal vector. -/
def listSwap {β : Type} (d : β) (l : List β) (i j : Nat) : List β :=
  (l.set i (l.getD j d)).set j (l.getD i d)

/-- Rust `BinaryHeap::sift_up` (fuel-indexed; `pos` iterations always
suffice since the hole index strictly decreases): move the element at
`pos` up while it is strictly greater than its parent under `le`. -/
def siftUpFuel {β : Type} (le : β → β → Bool) (d : β) :
    Nat → List β → Nat → List β
  | 0, data, _ => data
  | fuel + 1, data, pos =>
    if pos = 0 then data
    else
      let parent := (pos - 1) / 2
      if le (data.getD pos d) (data.getD parent d) then data
      else siftUpFuel le d fuel (listSwap d data pos parent) parent

/-- Rust `BinaryHeap::push`: append, then sift up from the last position. -/
def heapPush {β : Type} (le : β → β → Bool) (d : β) (h : List β) (x : β) : List β :=
  siftUpFuel le d h.length (h ++ [x]) h.length

/-- Function `rank_items`: clear the heap, then push every scored (matched) entry
in item-store order. The resulting list is the heap's internal vector. -/
def rank_items {α : Type} (scored : List (RankedItem α)) : List (RankedItem α) :=
  (scored.filter (fun r => r.score.isSome)).foldl
    (fun h r => heapPush rankedLe r h r) []

/-- Spec operation `rank_all`: full ranking pass and top-`k` window, as read by
`ranked.par_iter().take(k)` — the first `k` elements of the heap's
internal vector. -/
def rank_all {α : Type} (disp : α → List Char) (sc : Scorer) (query : List Char)
    (l : List (RankedItem α)) (k : Nat) : List (RankedItem α) :=
  (rank_items (score_items disp sc query l)).take k

/-- The `Prompt` struct of `src/lib.rs` (colour map omitted: cosmetic). -/
structure Prompt where
  prompt : List Char
  text : List Char
  header : Option (List Char)
  height : Nat
  width : Nat
  selection : Nat
deriving DecidableEq, Repr

/-- Key events consumed by `handle_events`. -/
inductive Event
  | enter
  | esc
  | up
  | down
  | backspace
  | charKey (c : Char)
  | other
  | mouse
deriving DecidableEq, Repr

/-- The query/cursor mutation performed by the event `match` in
`handle_events`, together with the `changed` flag it sets. -/
def applyEvent (e : Event) (p : Prompt) : Prompt × Bool :=
  match e with
  | Event.up =>
    ({ p with selection := if p.selection > 0 then p.selection - 1 else p.height - 1 }, false)
  | Event.down =>
    ({ p with selection := if p.selection < p.height - 1 then p.selection + 1 else 0 }, false)
  | Event.backspace => ({ p with text := p.text.dropLast }, true)
  | Event.charKey c => ({ p with text := p.text ++ [c] }, true)
  | _ => (p, false)

/-- Association-list lookup, modelling `HashMap::get`. -/
def cacheGet {β : Type} : List (List Char × β) → List Char → Option β
  | [], _ => none
  | (k, v) :: rest, q => if k = q then some v else cacheGet rest q

/-- Rust `HashMap::insert` (the freshest binding shadows older ones). -/
def cacheInsert {β : Type} (c : List (List Char × β)) (k : List Char) (v : β) :
    List (List Char × β) :=
  (k, v) :: c

/-- Rust `Vec::pop`: remove and return the last element. -/
def vecPop {β : Type} (l : List β) : Option (β × List β) :=
  match l.getLast? with
  | none => none
  | some x => some (x, l.dropLast)

/-- The alphabet string configured for colours and background caching. -/
def alphabetChars : List Char :=
  "abcdefghijklmnopqrstuvwxyzABCDEFGIJKLMNOPQRSTUVWXYZ".toList

/-- The `background_cache` vector: the configured alphabet reversed and collected
into a `Vec`, consumed from its end by `Vec::pop`. -/
def bgInit : List Char := alphabetChars.reverse

/-- The mutable state of `handle_events`: prompt, the scored item list,
the ranking heap (internal vector), the query cache and the background
candidate vector. -/
structure LoopState (α : Type) where
  prompt : Prompt
  list : List (RankedItem α)
  ranked : List (RankedItem α)
  cache : List (List Char × List (RankedItem α))
  bg : List Char
deriving DecidableEq, Repr

/-- Outcome of one iteration of the `handle_events` loop: either the
loop returns (Enter or Esc), or it continues in a new state, having
rendered the given window (or nothing on an idle wake). -/
inductive TickResult (α : Type)
  | finished : Option α → TickResult α
  | step : LoopState α → Option (List (RankedItem α)) → TickResult α
deriving DecidableEq, Repr

/-- The continuing state of a tick, if any. -/
def TickResult.state? {α : Type} : TickResult α → Option (LoopState α)
  | TickResult.finished _ => none
  | TickResult.step s _ => some s

/-- The window rendered by a tick, if any. -/
def TickResult.rendered {α : Type} : TickResult α → Option (List (RankedItem α))
  | TickResult.finished _ => none
  | TickResult.step _ r => r

/-- The item list built by `run` from the item store (order preserved). -/
def initList {α : Type} (items : List α) : List (RankedItem α) :=
  items.map (fun i => { item := i, score := none, indices := [] })

/-- The tail of a loop iteration for every key event other than Enter
and Esc (`src/lib.rs` lines 265–340): apply the query/cursor mutation,
re-score under the guard
`changed && !text.is_empty() && !cache.contains_key(text)`, then either
render a cache hit or compute, insert and render the fresh window. -/
def tickKey {α : Type} (disp : α → List Char) (sc : Scorer) (s : LoopState α)
    (e : Event) : TickResult α :=
  let pc := applyEvent e s.prompt
  let p := pc.1
  let changed := pc.2
  let scoreNow := changed && !p.text.isEmpty && (cacheGet s.cache p.text).isNone
  let list2 := if scoreNow then score_items disp sc p.text s.list else s.list
  let ranked2 := if scoreNow then rank_items list2 else s.ranked
  let hit := if p.text = [] then none else cacheGet s.cache p.text
  match hit with
  | some v => TickResult.step { s with prompt := p, list := list2, ranked := ranked2 } (some v)
  | none =>
    let toPrint := if p.text = [] then list2.take p.height else ranked2.take p.height
    TickResult.step
      { s with
        prompt := p
        list := list2
        ranked := ranked2
        cache := cacheInsert s.cache p.text toPrint }
      (some toPrint)

/-- One iteration of the `handle_events` loop (`src/lib.rs` lines
237–341). `ev = none` is a poll timeout (idle wake, which attempts one
background cache computation and renders nothing); `some e` is a key
event, with Enter and Esc returning from the loop. -/
def tick {α : Type} (disp : α → List Char) (sc : Scorer) (s : LoopState α)
    (ev : Option Event) : TickResult α :=
  match ev with
  | none =>
    match vecPop s.bg with
    | none => TickResult.step s none
    | some (c, rest) =>
      let listClone := score_items disp sc [c] s.list
      let rankedClone := rank_items listClone
      TickResult.step
        { s with
          cache := cacheInsert s.cache [c] (rankedClone.take s.prompt.height)
          bg := rest }
        none
  | some Event.enter =>
    let seq := if s.prompt.text = [] then s.list else s.ranked
    TickResult.finished ((seq.take (s.prompt.selection + 1)).map (fun r => r.item)).getLast?
  | some Event.esc => TickResult.finished none
  | some e => tickKey disp sc s e

/-- The spec's primary ordering requirement on a ResultSet window:
adjacent scores are non-increasing. -/
def pairwiseDesc : List (Option Int) → Bool
  | [] => true
  | [_] => true
  | a :: b :: r => optLe b a && pairwiseDesc (b :: r)

/-- Width truncation used for the header and each item row in `render`:
`if s.len() > width { &s[..width - 3] } else { &s[..] }`. `none` models a
panic: `width - 3` underflows when `width < 3` (and the wrapped slice
index is out of bounds in release builds), and a byte slice not on a
character boundary panics. -/
def truncDisplay (width : Nat) (s : List Char) : Option (List Char) :=
  if byteLen s > width then
    if width < 3 then none else takeBytes s (width - 3)
  else some s

/-- Draw instructions issued by `render` (styling colours abstracted;
matched indices are threaded through as data). -/
inductive DrawOp
  | restorePos
  | clearLine
  | printLabel (s : List Char)
  | printQueryChar (c : Char)
  | moveRight (n : Nat)
  | moveToNextLine (n : Nat)
  | printHeader (s : List Char)
  | printRowNum (n : Nat)
  | printDelim (selected : Bool)
  | printItemText (s : List Char) (matched : List Nat) (selected : Bool)
deriving DecidableEq, Repr

/-- One row `y` of the item window in `render`: always clear the line;
when `y < items.len()` print the 1-based row number, the delimiter and
the (possibly truncated) display text. -/
def renderRow {α : Type} (disp : α → List Char) (width selection : Nat)
    (items : List (RankedItem α)) (y : Nat) : Option (List DrawOp) :=
  match items.get? y with
  | none => some [DrawOp.moveToNextLine 1, DrawOp.clearLine]
  | some it =>
    match truncDisplay width (disp it.item) with
    | none => none
    | some t =>
      some [DrawOp.moveToNextLine 1, DrawOp.clearLine, DrawOp.printRowNum (y + 1),
        DrawOp.printDelim (y = selection), DrawOp.printItemText t it.indices (y = selection)]

/-- The rows `0..height` of the item window, in order. -/
def renderRowsFrom {α : Type} (disp : α → List Char) (width selection : Nat)
    (items : List (RankedItem α)) : List Nat → Option (List DrawOp)
  | [] => some []
  | y :: ys =>
    match renderRow disp width selection items y, renderRowsFrom disp width selection items ys with
    | some a, some b => some (a ++ b)
    | _, _ => none

/-- The optional header block of `render`: nothing when no header is
configured, otherwise the (possibly truncated) header line; `none`
models a panic while truncating. -/
def headerOps (p : Prompt) : Option (List DrawOp) :=
  match p.header with
  | none => some []
  | some h =>
    match truncDisplay p.width h with
    | none => none
    | some t =>
      some [DrawOp.moveToNextLine 1, DrawOp.clearLine, DrawOp.moveRight 3,
        DrawOp.printHeader t]

/-- Function `render` (`src/lib.rs` lines 45–136): prompt label and query text,
optional truncated header, up to `height` item rows, final cursor
restore. `none` models a panic inside `render`. -/
def renderOps {α : Type} (disp : α → List Char) (p : Prompt)
    (items : List (RankedItem α)) : Option (List DrawOp) :=
  match headerOps p, renderRowsFrom disp p.width p.selection items (List.range p.height) with
  | some hs, some rows =>
    some ([DrawOp.restorePos, DrawOp.clearLine, DrawOp.printLabel p.prompt]
      ++ p.text.map DrawOp.printQueryChar
      ++ [DrawOp.moveRight (byteLen p.text)]
      ++ hs ++ rows
      ++ [DrawOp.restorePos, DrawOp.moveRight (byteLen p.prompt + byteLen p.text)])
  | _, _ => none

/-- Terminal-session operations issued by `run`. -/
inductive TermOp
  | enableRaw
  | scrollUp (n : Nat)
  | moveUp (n : Nat)
  | enableMouse
  | moveToCol (n : Nat)
  | savePos
  | setSize (cols rows : Nat)
  | restorePos
  | moveToNextLine (n : Nat)
  | clearLine
  | disableMouse
  | disableRaw
deriving DecidableEq, Repr

/-- The parameters `run` reads from its caller and the terminal. -/
structure RunCfg where
  cols : Nat
  rows : Nat
  posRow : Nat
  height : Nat
  hasHeader : Bool
  resize : Bool
deriving DecidableEq, Repr

/-- Value `final_height` in `run`: one extra row for the prompt, one more when
a header is displayed. -/
def finalHeight (c : RunCfg) : Nat :=
  if c.hasHeader then c.height + 2 else c.height + 1

/-- The terminal operations `run` performs before entering the loop. -/
def setupOps (c : RunCfg) : List TermOp :=
  [TermOp.enableRaw]
    ++ (if c.posRow + finalHeight c > c.rows
        then [TermOp.scrollUp (finalHeight c), TermOp.moveUp (finalHeight c)] else [])
    ++ [TermOp.enableMouse, TermOp.moveToCol 1, TermOp.savePos]
    ++ (if c.resize then [TermOp.setSize c.cols (finalHeight c)] else [])

/-- The restoration sequence at the end of `run`: restore the anchor,
clear the picker rows, restore the viewport size, disable mouse capture,
restore the cursor, clear, and leave raw mode. -/
def cleanupOps (c : RunCfg) : List TermOp :=
  [TermOp.restorePos]
    ++ (List.replicate (finalHeight c) [TermOp.moveToNextLine 1, TermOp.clearLine]).flatten
    ++ [TermOp.setSize c.cols c.rows, TermOp.disableMouse, TermOp.restorePos,
      TermOp.clearLine, TermOp.disableRaw]

/-- Function `run` (`src/lib.rs` lines 347–410), parametrised by the outcome of
`handle_events`: the terminal operations it issues and its return value.
`handle_events(..)?` propagates a loop error immediately, before any of
the cleanup code runs. -/
def runOps {α ε : Type} (c : RunCfg) (loopRes : Except ε (Option α)) :
    List TermOp × Except ε (Option α) :=
  match loopRes with
  | Except.error e => (setupOps c, Except.error e)
  | Except.ok r => (setupOps c ++ cleanupOps c, Except.ok r)

/-- In-place update of one position of a list (the effect of one
parallel scoring task on the shared slice). -/
def applyAt {β : Type} (f : β → β) : List β → Nat → List β
  | [], _ => []
  | x :: xs, 0 => f x :: xs
  | x :: xs, n + 1 => x :: applyAt f xs n

/-- Apply `f` at every index satisfying `p`. -/
def applyOn {β : Type} (p : Nat → Bool) (f : β → β) : List β → List β
  | [] => []
  | x :: xs => (if p 0 then f x else x) :: applyOn (fun n => p (n + 1)) f xs

/-- A scheduled execution of `score_items`' parallel fan-out: the
per-item in-place updates are performed in the order given by `ord`
(any interleaving/partition of task completions that touches every
index at least once is admissible). -/
def scoreItemsSched {α : Type} (disp : α → List Char) (sc : Scorer) (query : List Char)
    (ord : List Nat) (l : List (RankedItem α)) : List (RankedItem α) :=
  ord.foldl (fun acc i => applyAt (rankItem disp sc query) acc i) l

/-- Re-scoring never touches the wrapped item. -/
theorem rankItem_item {α : Type} (disp : α → List Char) (sc : Scorer) (q : List Char)
    (r : RankedItem α) : (rankItem disp sc q r).item = r.item := by
  unfold rankItem
  split <;> rfl

/-- Scoring an already-scored entry again with the same query produces
the same entry: the result depends only on the item. -/
theorem rankItem_idem {α : Type} (disp : α → List Char) (sc : Scorer) (q : List Char)
    (r : RankedItem α) :
    rankItem disp sc q (rankItem disp sc q r) = rankItem disp sc q r := by
  cases h : sc (disp r.item) q with
  | none => simp [rankItem, h]
  | some v => cases v with
    | mk a b => simp [rankItem, h]

theorem applyOn_false {β : Type} (f : β → β) (p : Nat → Bool) (l : List β)
    (h : ∀ n, p n = false) : applyOn p f l = l := by
  induction l generalizing p with
  | nil => rfl
  | cons x xs ih =>
    simp only [applyOn, h 0, Bool.false_eq_true, if_false]
    exact congrArg (x :: ·) (ih _ (fun n => h (n + 1)))

theorem applyOn_congr {β : Type} (f : β → β) (p q : Nat → Bool) (l : List β)
    (h : ∀ n, p n = q n) : applyOn p f l = applyOn q f l := by
  induction l generalizing p q with
  | nil => rfl
  | cons x xs ih =>
    simp only [applyOn, h 0]
    exact congrArg _ (ih _ _ (fun n => h (n + 1)))

theorem applyAt_eq_applyOn {β : Type} (f : β → β) (l : List β) (i : Nat) :
    applyAt f l i = applyOn (fun n => decide (n = i)) f l := by
  induction l generalizing i with
  | nil => rfl
  | cons x xs ih =>
    cases i with
    | zero =>
      simp only [applyAt, applyOn]
      rw [if_pos (by simp)]
      refine congrArg (f x :: ·) ?_
      exact (applyOn_false f _ xs (fun n => by simp)).symm
    | succ i =>
      simp only [applyAt, applyOn]
      rw [if_neg (by simp)]
      refine congrArg (x :: ·) ?_
      rw [ih i]
      exact applyOn_congr f _ _ xs (fun n => by simp)

/-- Two in-place passes compose into one pass on the union of touched
indices, provided the per-element update is idempotent. -/
theorem applyOn_applyOn {β : Type} (f : β → β) (hf : ∀ x, f (f x) = f x)
    (p q : Nat → Bool) (l : List β) :
    applyOn p f (applyOn q f l) = applyOn (fun n => q n || p n) f l := by
  induction l generalizing p q with
  | nil => rfl
  | cons x xs ih =>
    cases hq : q 0 <;> cases hp : p 0 <;>
      simp [applyOn, hq, hp, hf, ih (fun n => p (n + 1)) (fun n => q (n + 1))]

/-- A pass touching every index is a `map`. -/
theorem applyOn_all {β : Type} (f : β → β) (p : Nat → Bool) (l : List β)
    (h : ∀ i, i < l.length → p i = true) : applyOn p f l = l.map f := by
  induction l generalizing p with
  | nil => rfl
  | cons x xs ih =>
    simp only [applyOn, h 0 (by simp), if_true, List.map]
    exact congrArg _ (ih _ (fun i hi => h (i + 1) (by simpa using hi)))

/-- Any completion order of the parallel scoring tasks that touches
every index produces the canonical elementwise map. -/
theorem scoreItemsSched_eq_applyOn {α : Type} (disp : α → List Char) (sc : Scorer)
    (q : List Char) (ord : List Nat) (l : List (RankedItem α)) :
    scoreItemsSched disp sc q ord l
      = applyOn (fun n => decide (n ∈ ord)) (rankItem disp sc q) l := by
  induction ord generalizing l with
  | nil =>
    simp only [scoreItemsSched, List.foldl_nil]
    exact (applyOn_false _ _ l (fun n => by simp)).symm
  | cons a ord ih =>
    have step : scoreItemsSched disp sc q (a :: ord) l
        = scoreItemsSched disp sc q ord (applyAt (rankItem disp sc q) l a) := rfl
    rw [step, ih, applyAt_eq_applyOn, applyOn_applyOn _ (rankItem_idem disp sc q)]
    exact applyOn_congr _ _ _ l (fun n => by simp [List.mem_cons])

/-- C2. For a fixed item store and query, any scheduling of the parallel
scoring fan-out that completes every per-item task yields the same
scored list — the canonical `score_items` map — and hence an identical
ResultSet (ranking heap) and identical top-`k` window. -/
theorem rank_all_deterministic {α : Type} (disp : α → List Char) (sc : Scorer)
    (q : List Char) (l : List (RankedItem α)) (ord₁ ord₂ : List Nat) (k : Nat)
    (h₁ : ∀ i, i < l.length → i ∈ ord₁) (h₂ : ∀ i, i < l.length → i ∈ ord₂) :
    scoreItemsSched disp sc q ord₁ l = score_items disp sc q l
    ∧ scoreItemsSched disp sc q ord₁ l = scoreItemsSched disp sc q ord₂ l
    ∧ (rank_items (scoreItemsSched disp sc q ord₁ l)).take k
        = (rank_items (scoreItemsSched disp sc q ord₂ l)).take k
    ∧ (rank_items (scoreItemsSched disp sc q ord₁ l)).take k = rank_all disp sc q l k := by
  have e₁ : scoreItemsSched disp sc q ord₁ l = score_items disp sc q l := by
    rw [scoreItemsSched_eq_applyOn]
    exact applyOn_all _ _ l (fun i hi => by simpa using h₁ i hi)
  have e₂ : scoreItemsSched disp sc q ord₂ l = score_items disp sc q l := by
    rw [scoreItemsSched_eq_applyOn]
    exact applyOn_all _ _ l (fun i hi => by simpa using h₂ i hi)
  refine ⟨e₁, e₁.trans e₂.symm, ?_, ?_⟩
  · rw [e₁, e₂]
  · rw [e₁]; rfl

/-- C8. Cursor wraparound: for any window height ≥ 1 and in-range
cursor, Up from 0 wraps to `height - 1` and otherwise decrements, Down
from `height - 1` wraps to 0 and otherwise increments, and both results
stay inside `[0, height)`. -/
theorem cursor_wraparound (p : Prompt) (h1 : 1 ≤ p.height) (h2 : p.selection < p.height) :
    ((applyEvent Event.up p).1.selection
      = if p.selection = 0 then p.height - 1 else p.selection - 1)
    ∧ ((applyEvent Event.down p).1.selection
      = if p.selection = p.height - 1 then 0 else p.selection + 1)
    ∧ (applyEvent Event.up p).1.selection < p.height
    ∧ (applyEvent Event.down p).1.selection < p.height := by
  refine ⟨?_, ?_, ?_, ?_⟩ <;> simp only [applyEvent] <;> split_ifs <;> omega

/-- Concrete instance of `cursor_wraparound` at height 5: Up from 0
lands on 4, Down from 4 lands on 0. -/
theorem cursor_wraparound_witness :
    (applyEvent Event.up
      { prompt := [], text := [], header := none, height := 5, width := 20, selection := 0 }).1.selection = 4
    ∧ (applyEvent Event.down
      { prompt := [], text := [], header := none, height := 5, width := 20, selection := 4 }).1.selection = 0 := by
  constructor
  · have h := cursor_wraparound
      { prompt := [], text := [], header := none, height := 5, width := 20, selection := 0 }
      (by decide) (by decide)
    simpa using h.1
  · have h := cursor_wraparound
      { prompt := [], text := [], header := none, height := 5, width := 20, selection := 4 }
      (by decide) (by decide)
    simpa using h.2.1

/-- Items that are their own display text (as in `examples/words.rs`,
which picks from a word list). -/
def dispStr : List Char → List Char := fun s => s

/-- A concrete exact-match scorer stub (the spec's call-counting-stub
style of Scorer instance). -/
def scExact : Scorer := fun it q => if it = q then some (1, [0]) else none

/-- Witness for the determinism theorem: two different task-completion
orders (one even re-running a task) over a two-item store. -/
theorem rank_all_deterministic_witness :
    scoreItemsSched dispStr scExact ['b'] [1, 0] (initList [['a', 'b'], ['b']])
      = scoreItemsSched dispStr scExact ['b'] [0, 1, 1] (initList [['a', 'b'], ['b']]) := by
  have h := rank_all_deterministic dispStr scExact ['b'] (initList [['a', 'b'], ['b']])
    [1, 0] [0, 1, 1] 3 (by decide) (by decide)
  exact h.2.1

/-- The scorer used to exhibit the unsorted window: scores 1, 3, 2 for
the three items A, B, C regardless of the query. -/
def scC1 : Scorer := fun it _q =>
  if it = ['A'] then some (1, []) else if it = ['B'] then some (3, []) else some (2, [])

/-- Loop state at session start for the three-item store A, B, C with a
three-row window. -/
def stateC1 : LoopState (List Char) :=
  { prompt := { prompt := ['>', ' '], text := [], header := none, height := 3, width := 20, selection := 0 },
    list := initList [['A'], ['B'], ['C']],
    ranked := [], cache := [], bg := bgInit }

/-- C1. The visible window is read with `ranked.par_iter().take(k)`,
i.e. in the binary heap's internal array order, which is not sorted:
with scores 1, 3, 2 arriving in store order the heap array is
[3, 1, 2], so the displayed window has entry 1 with score 1 followed by
entry 2 with score 2 — the spec's score-descending invariant fails. -/
theorem window_not_sorted_bug :
    (tick dispStr scC1 stateC1 (some (Event.charKey 'x'))).rendered
      = some [{ item := ['B'], score := some 3, indices := [] },
              { item := ['A'], score := some 1, indices := [] },
              { item := ['C'], score := some 2, indices := [] }]
    ∧ pairwiseDesc
        ((((tick dispStr scC1 stateC1 (some (Event.charKey 'x'))).rendered).getD []).map
          RankedItem.score) = false := by
  decide

/-- Every event except Enter and Esc runs the shared key-handling tail. -/
theorem tick_eq_tickKey {α : Type} (disp : α → List Char) (sc : Scorer) (s : LoopState α)
    (e : Event) (h1 : e ≠ Event.enter) (h2 : e ≠ Event.esc) :
    tick disp sc s (some e) = tickKey disp sc s e := by
  cases e <;> first
    | rfl
    | exact absurd rfl h1
    | exact absurd rfl h2

/-- Events never change the window height. -/
theorem applyEvent_height (e : Event) (p : Prompt) : (applyEvent e p).1.height = p.height := by
  cases e <;> rfl

/-- Events never change the prompt label. -/
theorem applyEvent_prompt (e : Event) (p : Prompt) : (applyEvent e p).1.prompt = p.prompt := by
  cases e <;> rfl

/-- C3 (amended). A tick whose post-event query is empty renders
exactly the first `height` entries of the live item list (the Item
Store in original order), never invokes the Scorer (the result is the
same for any two scorers) and never reads the cache — but it does
insert the rendered window into the cache under the empty query key. -/
theorem empty_query_tick {α : Type} (disp : α → List Char) (sc sc' : Scorer)
    (s : LoopState α) (e : Event) (_hne : s.list ≠ [])
    (h1 : e ≠ Event.enter) (h2 : e ≠ Event.esc)
    (ht : (applyEvent e s.prompt).1.text = []) :
    tick disp sc s (some e)
      = TickResult.step
          { s with
            prompt := (applyEvent e s.prompt).1
            cache := cacheInsert s.cache [] (s.list.take s.prompt.height) }
          (some (s.list.take s.prompt.height))
    ∧ tick disp sc s (some e) = tick disp sc' s (some e)
    ∧ ((tick disp sc s (some e)).rendered).map (List.map RankedItem.item)
        = some ((s.list.map RankedItem.item).take s.prompt.height) := by
  have hstep : ∀ sc'' : Scorer,
      tick disp sc'' s (some e)
        = TickResult.step
            { s with
              prompt := (applyEvent e s.prompt).1
              cache := cacheInsert s.cache [] (s.list.take s.prompt.height) }
            (some (s.list.take s.prompt.height)) := by
    intro sc''
    rw [tick_eq_tickKey disp sc'' s e h1 h2]
    simp [tickKey, ht, applyEvent_height]
  refine ⟨hstep sc, (hstep sc).trans (hstep sc').symm, ?_⟩
  rw [hstep sc]
  simp [TickResult.rendered, List.map_take]

/-- Loop state with query "a" over the two-item store ["a", "b"] and a
one-row window, used for the empty-query claims. -/
def stateC3 : LoopState (List Char) :=
  { prompt := { prompt := ['>'], text := ['a'], header := none, height := 1, width := 20, selection := 0 },
    list := initList [['a'], ['b']],
    ranked := [], cache := [], bg := [] }

/-- Witness: backspacing the query to "" renders the first item of the
store. -/
theorem empty_query_tick_witness :
    (tick dispStr scExact stateC3 (some Event.backspace)).rendered
      = some [{ item := ['a'], score := none, indices := [] }] := by
  have h := empty_query_tick dispStr scExact scExact stateC3 Event.backspace
    (by decide) (by decide) (by decide) (by decide)
  rw [h.1]
  decide

/-- Counterexample to C3 as stated: the empty-query tick does touch the
Query Cache — before the tick the cache has no entry for the empty
query, after it the rendered window has been inserted under that key. -/
theorem empty_query_touches_cache_cex :
    cacheGet stateC3.cache [] = none
    ∧ ((tick dispStr scExact stateC3 (some Event.backspace)).state?).map
        (fun st => cacheGet st.cache [])
      = some (some [{ item := ['a'], score := none, indices := [] }]) := by
  decide

/-- C7 (amended). An idle wake performs at most one speculative
computation: it pops the next candidate from the tail of the
reversed-alphabet vector (hence consumes the configured alphabet in
forward order), scores a clone of the item list for that one-character
query whether or not it is already cached, stores the top-`height`
window of the resulting heap under that key, changes nothing else and
renders nothing; with no candidates left it does nothing at all. -/
theorem idle_prewarm_tick {α : Type} (disp : α → List Char) (sc : Scorer)
    (s : LoopState α) :
    (vecPop s.bg = none → tick disp sc s none = TickResult.step s none)
    ∧ (∀ ch rest, vecPop s.bg = some (ch, rest) →
        tick disp sc s none
          = TickResult.step
              { s with
                cache := cacheInsert s.cache [ch]
                  ((rank_items (score_items disp sc [ch] s.list)).take s.prompt.height)
                bg := rest }
              none) := by
  constructor
  · intro h
    simp [tick, h]
  · intro ch rest h
    simp [tick, h]

/-- State used for the pre-warm witness: two pending candidates. -/
def stateC7w : LoopState (List Char) :=
  { prompt := { prompt := ['>'], text := [], header := none, height := 1, width := 20, selection := 0 },
    list := initList [['y']],
    ranked := [], cache := [], bg := ['x', 'y'] }

/-- Witness: one idle wake pops 'y' (the vector's last element),
computes its window and caches it. -/
theorem idle_prewarm_tick_witness :
    tick dispStr scExact stateC7w none
      = TickResult.step
          { stateC7w with
            cache := [(['y'], [{ item := ['y'], score := some 1, indices := [0] }])]
            bg := ['x'] }
          none := by
  have h := (idle_prewarm_tick dispStr scExact stateC7w).2 'y' ['x'] (by decide)
  rw [h]
  decide

/-- State whose cache already holds the query "a" while the candidate
vector is still full. -/
def stateC7 : LoopState (List Char) :=
  { prompt := { prompt := ['>'], text := [], header := none, height := 1, width := 20, selection := 0 },
    list := [], ranked := [], cache := [(['a'], [])], bg := bgInit }

/-- Counterexample to C7 as stated: the first candidate popped is 'a'
(forward alphabet order, not the reverse order 'Z' first), and it is
taken even though "a" is already cached. -/
theorem idle_prewarm_cex :
    (vecPop stateC7.bg).map Prod.fst = some 'a'
    ∧ alphabetChars.reverse.head? = some 'Z'
    ∧ ('a' : Char) ≠ 'Z'
    ∧ cacheGet stateC7.cache ['a'] = some []
    ∧ ((tick dispStr scExact stateC7 none).state?).map LoopState.bg
        = some bgInit.dropLast := by
  decide

/-- C5 (amended). Once a non-empty query `q` is cached, any later tick
whose post-event query is `q` renders exactly the cached ResultSet,
leaves the list, heap and cache untouched, and never invokes the Scorer
(identical result for any two scorers); and cursor movement (Up/Down)
never re-scores: it is scorer-independent and preserves the scored list
and the heap. -/
theorem cached_query_tick {α : Type} (disp : α → List Char) (sc sc' : Scorer)
    (s : LoopState α) (e : Event) (h1 : e ≠ Event.enter) (h2 : e ≠ Event.esc) :
    (∀ v, (applyEvent e s.prompt).1.text ≠ [] →
      cacheGet s.cache (applyEvent e s.prompt).1.text = some v →
        tick disp sc s (some e)
          = TickResult.step { s with prompt := (applyEvent e s.prompt).1 } (some v)
        ∧ tick disp sc s (some e) = tick disp sc' s (some e))
    ∧ ((e = Event.up ∨ e = Event.down) →
        tick disp sc s (some e) = tick disp sc' s (some e)
        ∧ ((tick disp sc s (some e)).state?).map LoopState.list = some s.list
        ∧ ((tick disp sc s (some e)).state?).map LoopState.ranked = some s.ranked) := by
  constructor
  · intro v hq hv
    have hstep : ∀ sc'' : Scorer,
        tick disp sc'' s (some e)
          = TickResult.step { s with prompt := (applyEvent e s.prompt).1 } (some v) := by
      intro sc''
      rw [tick_eq_tickKey disp sc'' s e h1 h2]
      simp [tickKey, hv, hq]
    exact ⟨hstep sc, (hstep sc).trans (hstep sc').symm⟩
  · intro hor
    have hch : (applyEvent e s.prompt).2 = false := by
      rcases hor with rfl | rfl <;> rfl
    refine ⟨?_, ?_, ?_⟩
    · rw [tick_eq_tickKey disp sc s e h1 h2, tick_eq_tickKey disp sc' s e h1 h2]
      simp [tickKey, hch]
    · rw [tick_eq_tickKey disp sc s e h1 h2]
      simp only [tickKey, hch, Bool.false_and, Bool.and_false]
      split <;> simp [TickResult.state?]
    · rw [tick_eq_tickKey disp sc s e h1 h2]
      simp only [tickKey, hch, Bool.false_and, Bool.and_false]
      split <;> simp [TickResult.state?]

/-- State whose cache already holds query "a" with a distinctive value. -/
def stateC5w : LoopState (List Char) :=
  { prompt := { prompt := ['>'], text := [], header := none, height := 1, width := 20, selection := 0 },
    list := initList [['a']],
    ranked := [],
    cache := [(['a'], [{ item := ['a'], score := some 5, indices := [0] }])],
    bg := [] }

/-- Witness: typing 'a' with "a" already cached renders the cached
value directly. -/
theorem cached_query_tick_witness :
    (tick dispStr scExact stateC5w (some (Event.charKey 'a'))).rendered
      = some [{ item := ['a'], score := some 5, indices := [0] }] := by
  have h := (cached_query_tick dispStr scExact scExact stateC5w (Event.charKey 'a')
    (by decide) (by decide)).1
    [{ item := ['a'], score := some 5, indices := [0] }] (by decide) (by decide)
  rw [h.1]
  decide

/-- Advance the loop one event, keeping the state (identity on a
terminating tick); used to build multi-tick traces. -/
def stepState (s : LoopState (List Char)) (e : Event) : LoopState (List Char) :=
  ((tick dispStr scExact s (some e)).state?).getD s

/-- Fresh session over the store ["a", "b"] with a two-row window. -/
def stateC5 : LoopState (List Char) :=
  { prompt := { prompt := ['>'], text := [], header := none, height := 2, width := 20, selection := 0 },
    list := initList [['a'], ['b']],
    ranked := [], cache := [], bg := [] }

/-- Counterexample to C5 as stated (quantifying over every query,
including the empty one): after the trace 'a', Backspace, 'b' the cache
holds a ResultSet for the empty query, yet the next empty-query tick
(Backspace) renders the live list — whose score and matched-index
fields have been overwritten by the "b" pass — not the cached value. -/
theorem cache_stability_cex :
    cacheGet ((stepState (stepState (stepState stateC5 (Event.charKey 'a'))
        Event.backspace) (Event.charKey 'b')).cache) []
      = some [{ item := ['a'], score := some 1, indices := [0] },
              { item := ['b'], score := none, indices := [] }]
    ∧ (tick dispStr scExact (stepState (stepState (stepState stateC5 (Event.charKey 'a'))
        Event.backspace) (Event.charKey 'b')) (some Event.backspace)).rendered
      = some [{ item := ['a'], score := none, indices := [0] },
              { item := ['b'], score := some 1, indices := [0] }]
    ∧ ([{ item := ['a'], score := some 1, indices := [0] },
        { item := ['b'], score := none, indices := [] }] : List (RankedItem (List Char)))
      ≠ [{ item := ['a'], score := none, indices := [0] },
         { item := ['b'], score := some 1, indices := [0] }] := by
  decide

/-- The `getLast?` of a `take (n+1)` is the element at `min n (length-1)`. -/
theorem take_succ_getLast? {β : Type} :
    ∀ (l : List β) (n : Nat), (l.take (n + 1)).getLast? = l[min n (l.length - 1)]? := by
  intro l
  induction l with
  | nil => intro n; simp
  | cons x xs ih =>
    intro n
    cases n with
    | zero => simp
    | succ n =>
      cases xs with
      | nil => simp
      | cons y ys =>
        rw [List.take_succ_cons, List.take_succ_cons, List.getLast?_cons_cons]
        rw [← List.take_succ_cons, ih n]
        have hmin : min (n + 1) ((x :: y :: ys).length - 1) = min n ((y :: ys).length - 1) + 1 := by
          simp [Nat.succ_min_succ]
        rw [hmin, List.getElem?_cons_succ]

/-- What Enter actually does: it terminates the loop and returns the
item at index `min(cursor, k - 1)` of the first `height` entries of the
live ranking heap (or of the original item list when the query is
empty), `none` when that sequence is empty. This coincides with the
visible window only when the last render came from the heap — after a
cache-hit render the heap is stale and the two diverge (see the C4
theorem below). -/
theorem enter_returns_selected {α : Type} (disp : α → List Char) (sc : Scorer)
    (s : LoopState α) (hsel : s.prompt.selection < s.prompt.height) :
    tick disp sc s (some Event.enter)
      = TickResult.finished
          ((((if s.prompt.text = [] then s.list else s.ranked).take s.prompt.height)[
              min s.prompt.selection
                (((if s.prompt.text = [] then s.list else s.ranked).take
                    s.prompt.height).length - 1)]?).map
            RankedItem.item) := by
  have h0 : tick disp sc s (some Event.enter)
      = TickResult.finished
          (((if s.prompt.text = [] then s.list else s.ranked).take
              (s.prompt.selection + 1)).map RankedItem.item).getLast? := rfl
  set seq := if s.prompt.text = [] then s.list else s.ranked with hseq
  rw [h0]
  congr 1
  rw [List.getLast?_map, take_succ_getLast?]
  have hlen : (seq.take s.prompt.height).length = min s.prompt.height seq.length :=
    List.length_take s.prompt.height seq
  have hj : min s.prompt.selection ((seq.take s.prompt.height).length - 1)
      = min s.prompt.selection (seq.length - 1) := by
    rw [hlen]; omega
  have hjlt : min s.prompt.selection (seq.length - 1) < s.prompt.height := by omega
  rw [hj, List.getElem?_take, if_pos hjlt]

/-- Ranked state used for the Enter witness: cursor beyond the window
content clamps to the last visible entry. -/
def stateC4 : LoopState (List Char) :=
  { prompt := { prompt := ['>'], text := ['q'], header := none, height := 3, width := 20, selection := 2 },
    list := initList [['a'], ['b']],
    ranked := [{ item := ['b'], score := some 2, indices := [] },
               { item := ['a'], score := some 1, indices := [] }],
    cache := [], bg := [] }

/-- Concrete instance of `enter_returns_selected`: Enter with cursor 2
over a two-entry heap returns the entry at index `min 2 1 = 1`. -/
theorem enter_returns_selected_witness :
    tick dispStr scExact stateC4 (some Event.enter) = TickResult.finished (some ['a']) := by
  have h := enter_returns_selected dispStr scExact stateC4 (by decide)
  rw [h]
  decide

/-- Fresh session over the one-item store ["a"] with a one-row window
and the full background-candidate vector. -/
def enterBugS0 : LoopState (List Char) :=
  { prompt := { prompt := ['>'], text := [], header := none, height := 1, width := 20, selection := 0 },
    list := initList [['a']],
    ranked := [], cache := [], bg := bgInit }

/-- State after one idle wake: the pre-warm pass has cached the
ResultSet for the one-character query "a". -/
def enterBugS1 : LoopState (List Char) :=
  ((tick dispStr scExact enterBugS0 none).state?).getD enterBugS0

/-- State after the user then types 'a': the tick is a cache hit, so
the cached window is rendered while the ranking heap stays untouched. -/
def enterBugS2 : LoopState (List Char) :=
  ((tick dispStr scExact enterBugS1 (some (Event.charKey 'a'))).state?).getD enterBugS1

/-- C4. Enter does not resolve the current visible ranked window: after
the idle pre-warm caches query "a" and the user types 'a', the tick
renders the nonempty cached window for "a", yet pressing Enter returns
no result, because Enter reads the live heap `ranked` — still empty,
since the cache hit skipped re-ranking. The claim requires the item at
`min(cursor, visible_count - 1) = 0` of the visible window, i.e. "a". -/
theorem enter_stale_heap_bug :
    (tick dispStr scExact enterBugS1 (some (Event.charKey 'a'))).rendered
      = some [{ item := ['a'], score := some 1, indices := [0] }]
    ∧ enterBugS2.prompt.text = ['a']
    ∧ enterBugS2.prompt.selection = 0
    ∧ enterBugS2.ranked = []
    ∧ tick dispStr scExact enterBugS2 (some Event.enter) = TickResult.finished none := by
  decide

/-- C6. When the interactive loop exits with an error, `run` propagates
it immediately (`handle_events(..)?`): the emitted terminal operations
are exactly the setup sequence — raw mode was enabled but is never
disabled, mouse capture is never released, and no viewport restore
runs. -/
theorem run_error_skips_restore {α ε : Type} (c : RunCfg) (e : ε) :
    (runOps (α := α) c (Except.error e)).2 = Except.error e
    ∧ (runOps (α := α) c (Except.error e)).1 = setupOps c
    ∧ TermOp.enableRaw ∈ (runOps (α := α) c (Except.error e)).1
    ∧ TermOp.disableRaw ∉ (runOps (α := α) c (Except.error e)).1
    ∧ TermOp.disableMouse ∉ (runOps (α := α) c (Except.error e)).1 := by
  refine ⟨rfl, rfl, ?_, ?_, ?_⟩ <;>
    simp only [runOps, setupOps] <;>
    split_ifs <;>
    simp

/-- Witness: a concrete 80x24 session with resize enabled whose loop
fails leaves raw mode enabled. -/
theorem run_error_skips_restore_witness :
    TermOp.disableRaw ∉ (runOps (α := List Char)
      { cols := 80, rows := 24, posRow := 0, height := 5, hasHeader := false, resize := true }
      (Except.error ())).1 := by
  exact (run_error_skips_restore
    { cols := 80, rows := 24, posRow := 0, height := 5, hasHeader := false, resize := true }
    ()).2.2.2.1

/-- A successful byte slice has exactly the requested byte length. -/
theorem takeBytes_byteLen :
    ∀ (s : List Char) (k : Nat) (t : List Char), takeBytes s k = some t → byteLen t = k := by
  intro s
  induction s with
  | nil =>
    intro k t h
    by_cases hk : k = 0
    · subst hk
      simp [takeBytes] at h
      subst h
      rfl
    · simp [takeBytes, hk] at h
  | cons c rest ih =>
    intro k t h
    by_cases hk : k = 0
    · subst hk
      simp [takeBytes] at h
      subst h
      rfl
    · simp only [takeBytes, if_neg hk] at h
      by_cases hle : utf8Len c ≤ k
      · rw [if_pos hle] at h
        rcases hmap : takeBytes rest (k - utf8Len c) with _ | t'
        · rw [hmap] at h; simp at h
        · rw [hmap] at h
          simp only [Option.map_some', Option.some.injEq] at h
          subst h
          have hrec := ih (k - utf8Len c) t' hmap
          simp only [byteLen, List.map_cons, List.sum_cons] at *
          omega
      · rw [if_neg hle] at h; simp at h

/-- A successful byte slice is a prefix of the sliced string. -/
theorem takeBytes_isTake :
    ∀ (s : List Char) (k : Nat) (t : List Char), takeBytes s k = some t → s.take t.length = t := by
  intro s
  induction s with
  | nil =>
    intro k t h
    by_cases hk : k = 0
    · subst hk; simp [takeBytes] at h; subst h; rfl
    · simp [takeBytes, hk] at h
  | cons c rest ih =>
    intro k t h
    by_cases hk : k = 0
    · subst hk; simp [takeBytes] at h; subst h; rfl
    · simp only [takeBytes, if_neg hk] at h
      by_cases hle : utf8Len c ≤ k
      · rw [if_pos hle] at h
        rcases hmap : takeBytes rest (k - utf8Len c) with _ | t'
        · rw [hmap] at h; simp at h
        · rw [hmap] at h
          simp only [Option.map_some', Option.some.injEq] at h
          subst h
          simp only [List.length_cons, List.take_succ_cons, List.cons.injEq, true_and]
          exact ih (k - utf8Len c) t' hmap
      · rw [if_neg hle] at h; simp at h

/-- Draw instructions of a row that renders successfully are part of
any successful multi-row render that includes that row. -/
theorem renderRowsFrom_mem {α : Type} (disp : α → List Char) (width selection : Nat)
    (items : List (RankedItem α)) :
    ∀ (ys : List Nat) (rws : List DrawOp) (y : Nat) (a : List DrawOp) (op : DrawOp),
      renderRowsFrom disp width selection items ys = some rws →
      y ∈ ys → renderRow disp width selection items y = some a → op ∈ a → op ∈ rws := by
  intro ys
  induction ys with
  | nil =>
    intro rws y a op h hy ha hop
    simp at hy
  | cons z zs ih =>
    intro rws y a op h hy ha hop
    rcases hz : renderRow disp width selection items z with _ | az
    · rw [renderRowsFrom, hz] at h
      simp at h
    · rcases hzs : renderRowsFrom disp width selection items zs with _ | rest
      · rw [renderRowsFrom, hz, hzs] at h
        simp at h
      · rw [renderRowsFrom, hz, hzs] at h
        simp only [Option.some.injEq] at h
        subst h
        rcases List.mem_cons.mp hy with rfl | hy'
        · rw [ha] at hz
          simp only [Option.some.injEq] at hz
          exact List.mem_append.mpr (Or.inl (hz ▸ hop))
        · exact List.mem_append.mpr (Or.inr (ih rest y a op hzs hy' ha hop))

/-- C9 (amended). Whenever the renderer succeeds, a header or item
display text that fits within the configured width is drawn in full,
and one whose byte length exceeds the width is drawn truncated to its
first `width - 3` bytes — a prefix of the text of byte length exactly
`width - 3` — with no ellipsis marker appended. -/
theorem display_truncation {α : Type} (disp : α → List Char) (p : Prompt)
    (items : List (RankedItem α)) (hs rws : List DrawOp)
    (hhdr : headerOps p = some hs)
    (hrows : renderRowsFrom disp p.width p.selection items (List.range p.height) = some rws) :
    (∀ hd, p.header = some hd → byteLen hd ≤ p.width →
      ∃ ops, renderOps disp p items = some ops ∧ DrawOp.printHeader hd ∈ ops)
    ∧ (∀ hd t, p.header = some hd → p.width < byteLen hd → 3 ≤ p.width →
        takeBytes hd (p.width - 3) = some t →
        ∃ ops, renderOps disp p items = some ops ∧ DrawOp.printHeader t ∈ ops
          ∧ byteLen t = p.width - 3 ∧ hd.take t.length = t)
    ∧ (∀ y it, items.get? y = some it → y < p.height →
        (byteLen (disp it.item) ≤ p.width →
          ∃ ops, renderOps disp p items = some ops
            ∧ DrawOp.printItemText (disp it.item) it.indices (y = p.selection) ∈ ops)
        ∧ (∀ t, p.width < byteLen (disp it.item) → 3 ≤ p.width →
            takeBytes (disp it.item) (p.width - 3) = some t →
            ∃ ops, renderOps disp p items = some ops
              ∧ DrawOp.printItemText t it.indices (y = p.selection) ∈ ops
              ∧ byteLen t = p.width - 3 ∧ (disp it.item).take t.length = t)) := by
  refine ⟨?_, ?_, ?_⟩
  · intro hd hh hfit
    have htr : truncDisplay p.width hd = some hd := by
      unfold truncDisplay
      rw [if_neg (by omega)]
    have hho : headerOps p
        = some [DrawOp.moveToNextLine 1, DrawOp.clearLine, DrawOp.moveRight 3,
            DrawOp.printHeader hd] := by
      simp only [headerOps, hh, htr]
    simp only [renderOps, hho, hrows]
    exact ⟨_, rfl, by simp⟩
  · intro hd t hh hgt hw3 htb
    have htr : truncDisplay p.width hd = some t := by
      unfold truncDisplay
      rw [if_pos (by omega), if_neg (by omega)]
      exact htb
    have hho : headerOps p
        = some [DrawOp.moveToNextLine 1, DrawOp.clearLine, DrawOp.moveRight 3,
            DrawOp.printHeader t] := by
      simp only [headerOps, hh, htr]
    simp only [renderOps, hho, hrows]
    exact ⟨_, rfl, by simp, takeBytes_byteLen hd _ t htb, takeBytes_isTake hd _ t htb⟩
  · intro y it hit hy
    constructor
    · intro hfit
      have htr : truncDisplay p.width (disp it.item) = some (disp it.item) := by
        unfold truncDisplay
        rw [if_neg (by omega)]
      have hrow : renderRow disp p.width p.selection items y
          = some [DrawOp.moveToNextLine 1, DrawOp.clearLine, DrawOp.printRowNum (y + 1),
              DrawOp.printDelim (y = p.selection),
              DrawOp.printItemText (disp it.item) it.indices (y = p.selection)] := by
        simp only [renderRow, hit, htr]
      have hmem : DrawOp.printItemText (disp it.item) it.indices (y = p.selection) ∈ rws :=
        renderRowsFrom_mem disp p.width p.selection items (List.range p.height) rws y _ _
          hrows (List.mem_range.mpr hy) hrow (by simp)
      simp only [renderOps, hhdr, hrows]
      exact ⟨_, rfl, by simp [List.mem_append, hmem]⟩
    · intro t hgt hw3 htb
      have htr : truncDisplay p.width (disp it.item) = some t := by
        unfold truncDisplay
        rw [if_pos (by omega), if_neg (by omega)]
        exact htb
      have hrow : renderRow disp p.width p.selection items y
          = some [DrawOp.moveToNextLine 1, DrawOp.clearLine, DrawOp.printRowNum (y + 1),
              DrawOp.printDelim (y = p.selection),
              DrawOp.printItemText t it.indices (y = p.selection)] := by
        simp only [renderRow, hit, htr]
      have hmem : DrawOp.printItemText t it.indices (y = p.selection) ∈ rws :=
        renderRowsFrom_mem disp p.width p.selection items (List.range p.height) rws y _ _
          hrows (List.mem_range.mpr hy) hrow (by simp)
      simp only [renderOps, hhdr, hrows]
      exact ⟨_, rfl, by simp [List.mem_append, hmem],
        takeBytes_byteLen _ _ t htb, takeBytes_isTake _ _ t htb⟩

/-- Prompt for the truncation witness: width 5, an 8-byte header and a
9-byte item, so both truncate to 2-byte prefixes. -/
def pC9w : Prompt :=
  { prompt := ['>'], text := [], header := some "abcdefgh".toList,
    height := 1, width := 5, selection := 0 }

/-- The single item of the truncation witness. -/
def itemsC9w : List (RankedItem (List Char)) :=
  [{ item := "xyzxyzxyz".toList, score := some 1, indices := [] }]

/-- Header block drawn for `pC9w`. -/
def hsC9w : List DrawOp :=
  [DrawOp.moveToNextLine 1, DrawOp.clearLine, DrawOp.moveRight 3,
    DrawOp.printHeader ['a', 'b']]

/-- Row block drawn for `pC9w` over `itemsC9w`. -/
def rwsC9w : List DrawOp :=
  [DrawOp.moveToNextLine 1, DrawOp.clearLine, DrawOp.printRowNum 1,
    DrawOp.printDelim true, DrawOp.printItemText ['x', 'y'] [] true]

/-- Witness: width 5 draws the header "abcdefgh" as its 2-byte prefix
"ab" and the item "xyzxyzxyz" as its 2-byte prefix "xy". -/
theorem display_truncation_witness :
    (∃ ops, renderOps dispStr pC9w itemsC9w = some ops
      ∧ DrawOp.printHeader ['a', 'b'] ∈ ops)
    ∧ (∃ ops, renderOps dispStr pC9w itemsC9w = some ops
      ∧ DrawOp.printItemText ['x', 'y'] [] true ∈ ops) := by
  have h := display_truncation dispStr pC9w itemsC9w hsC9w rwsC9w (by decide) (by decide)
  constructor
  · obtain ⟨ops, h1, h2, _, _⟩ := h.2.1 "abcdefgh".toList ['a', 'b'] rfl
      (by decide) (by decide) (by decide)
    exact ⟨ops, h1, h2⟩
  · obtain ⟨ops, h1, h2, _, _⟩ := (h.2.2 0
      { item := "xyzxyzxyz".toList, score := some 1, indices := [] } (by decide) (by decide)).2
      ['x', 'y'] (by decide) (by decide) (by decide)
    exact ⟨ops, h1, h2⟩

/-- Counterexample to C9 as stated: with width 10 the 12-character
header "abcdefghijkl" is drawn as the bare 7-character prefix
"abcdefg" — no ellipsis marker of any kind ('.', '…') appears in the
drawn text, and its length is `width - 3`, not `width`. -/
theorem header_no_ellipsis_cex :
    truncDisplay 10 "abcdefghijkl".toList = some "abcdefg".toList
    ∧ renderOps dispStr
        { prompt := ['>'], text := [], header := some "abcdefghijkl".toList,
          height := 0, width := 10, selection := 0 }
        ([] : List (RankedItem (List Char)))
      = some [DrawOp.restorePos, DrawOp.clearLine, DrawOp.printLabel ['>'],
          DrawOp.moveRight 0, DrawOp.moveToNextLine 1, DrawOp.clearLine,
          DrawOp.moveRight 3, DrawOp.printHeader "abcdefg".toList,
          DrawOp.restorePos, DrawOp.moveRight 1]
    ∧ (∀ ch ∈ "abcdefg".toList, ch ≠ '.' ∧ ch ≠ '…')
    ∧ ("abcdefg".toList.length ≠ 10) := by
  decide

/-- C10. `render` is not total: with `width = 2 < 3` and a header
longer than the width the truncation index `width - 3` underflows, and
with `width = 4` and the non-ASCII item "ééé" the byte index
`width - 3 = 1` falls inside the two-byte first character — both inputs
panic instead of producing draw instructions. -/
theorem render_panics :
    renderOps dispStr
        { prompt := ['>'], text := [], header := some "abcd".toList,
          height := 0, width := 2, selection := 0 }
        ([] : List (RankedItem (List Char))) = none
    ∧ renderOps dispStr
        { prompt := ['>'], text := [], header := none,
          height := 1, width := 4, selection := 0 }
        [{ item := ['é', 'é', 'é'], score := some 1, indices := [] }] = none := by
  decide
